import Mathlib

/-!
Verification of the itinerary-planner repository: a shallow embedding of the
candidate projection, the production validator, the JSON slice extractor, the
Zod-style schema parsers and the generate-validate-repair loops, together with
theorems settling the specification claims.

Strings are Lean `String`s; all character-level operations are carried out on
the underlying `List Char`, with small helpers that model the JavaScript
string primitives (`trim`, `toLowerCase`, `includes`, `startsWith`, `split`,
`join`) used by the source.
-/

namespace Itin

/-- Brace characters, written by code point to keep string literals clean. -/
def openBraceChar : Char := Char.ofNat 123

def closeBraceChar : Char := Char.ofNat 125

/-- Models JavaScript `String.prototype.trim` on a character list. -/
def trimL (l : List Char) : List Char :=
  ((l.dropWhile Char.isWhitespace).reverse.dropWhile Char.isWhitespace).reverse

/-- Models JavaScript `s.trim()`. -/
def trimS (s : String) : String := ⟨trimL s.data⟩

/-- Models JavaScript `s.toLowerCase()` (ASCII range, as used by the source). -/
def lowerS (s : String) : String := ⟨s.data.map Char.toLower⟩

/-- Boolean test that `p` is a leading segment of `l`. -/
def isPrefixOfL : List Char → List Char → Bool
  | [], _ => true
  | _ :: _, [] => false
  | p :: ps, c :: cs => if p = c then isPrefixOfL ps cs else false

/-- Models JavaScript `s.includes(pat)`: `pat` occurs contiguously in `s`. -/
def containsSubL (pat : List Char) : List Char → Bool
  | [] => isPrefixOfL pat []
  | l@(_ :: rest) => isPrefixOfL pat l || containsSubL pat rest

/-- Models JavaScript `s.includes(pat)` on `String`s. -/
def strIncludes (s pat : String) : Bool := containsSubL pat.data s.data

/-- Models JavaScript `s.startsWith(pre)`. -/
def strStartsWith (s pre : String) : Bool := isPrefixOfL pre.data s.data

/-- Models JavaScript `s.split(sep)` for a one-character separator. -/
def jsSplitChar (sep : Char) : List Char → List (List Char)
  | [] => [[]]
  | c :: rest =>
    if c = sep then [] :: jsSplitChar sep rest
    else
      match jsSplitChar sep rest with
      | [] => [[c]]
      | p :: ps => (c :: p) :: ps

/-- Models JavaScript `parts.join(sep)` for a one-character separator. -/
def joinChar (sep : Char) : List (List Char) → List Char
  | [] => []
  | [x] => x
  | x :: y :: rest => x ++ sep :: joinChar sep (y :: rest)

/-- Models JavaScript `s.split(pat)[0]` for the multi-character pattern
`p0 :: pr`: the characters of `s` before the first occurrence of the
pattern (all of `s` when the pattern does not occur). -/
def takeBeforeSub (p0 : Char) (pr : List Char) : List Char → List Char
  | [] => []
  | c :: rest =>
    if c = p0 ∧ isPrefixOfL pr rest = true then []
    else c :: takeBeforeSub p0 pr rest

/-! ## Candidates and allowed lists (src/index.ts, tools/buildCandidates) -/

inductive Category where
  | restaurant
  | attraction
  | indoor_backup
deriving DecidableEq, Repr

structure Candidate where
  name : String
  category : Category
  url : String
  notes : Option String
deriving DecidableEq, Repr

/-- `cap` from src/index.ts: `arr.length > n ? arr.slice(0, n) : arr`. -/
def cap {α : Type} (arr : List α) (n : Nat) : List α :=
  if arr.length > n then arr.take n else arr

/-- Worker for `unique`: keeps the first occurrence of each string, in order,
modelling iteration order of a JavaScript `Set`. -/
def dedupFirst (seen : List String) : List String → List String
  | [] => []
  | s :: rest =>
    if seen.contains s then dedupFirst seen rest
    else s :: dedupFirst (s :: seen) rest

/-- `unique` from src/index.ts:
`[...new Set(arr.map((s) => s.trim()).filter(Boolean))]`. -/
def unique (arr : List String) : List String :=
  dedupFirst [] ((arr.map trimS).filter (fun s => !(s == "")))

structure AllowedLists where
  allowedAttractions : List String
  allowedRestaurants : List String
  allowedIndoorBackups : List String
deriving DecidableEq, Repr

/-- `allowedListsFromCandidates` from the batch path (planFromIntake copy,
caps 60/40/30). The CLI copy differs only in its caps (25/25/15). -/
def allowedListsFromCandidates (candidates : List Candidate) : AllowedLists :=
  let allowedAttractions :=
    unique ((candidates.filter (fun c => c.category = Category.attraction)).map (·.name))
  let allowedRestaurants :=
    unique ((candidates.filter (fun c => c.category = Category.restaurant)).map (·.name))
  let allowedIndoorBackups :=
    unique ((candidates.filter (fun c => c.category = Category.indoor_backup)).map (·.name))
  { allowedAttractions := cap allowedAttractions 60
    allowedRestaurants := cap allowedRestaurants 40
    allowedIndoorBackups := cap allowedIndoorBackups 30 }

/-- Worker for `dedupe` (tools/buildCandidates.ts): identity is the
lowercase-trimmed name; empty keys are skipped; first occurrence wins. -/
def dedupeGo (seen : List String) : List Candidate → List Candidate
  | [] => []
  | c :: rest =>
    let key := lowerS (trimS c.name)
    if key = "" then dedupeGo seen rest
    else if seen.contains key then dedupeGo seen rest
    else c :: dedupeGo (key :: seen) rest

/-- `dedupe` from tools/buildCandidates.ts. -/
def dedupe (cands : List Candidate) : List Candidate := dedupeGo [] cands

/-- Concrete candidate list of the deduplication example. -/
def c2cands : List Candidate :=
  [⟨"Cafe A", Category.restaurant, "u", none⟩,
   ⟨"cafe a ", Category.restaurant, "u", none⟩,
   ⟨"Cafe B", Category.restaurant, "u", none⟩]

/-! ## Trip and itinerary data model (src/schema.ts, post-Zod types) -/

inductive Pace where
  | relaxed
  | balanced
  | packed
deriving DecidableEq, Repr

inductive BudgetLevel where
  | low
  | mid
  | high
deriving DecidableEq, Repr

def paceStr : Pace → String
  | Pace.relaxed => "relaxed"
  | Pace.balanced => "balanced"
  | Pace.packed => "packed"

structure TripRequest where
  destination : String
  tripLengthDays : Nat
  datesStart : Option String
  datesEnd : Option String
  travelers : Nat
  budgetLevel : BudgetLevel
  pace : Pace
  interests : List String
  constraints : List String
  missingInfoQuestions : List String
deriving DecidableEq, Repr

structure DayBlock where
  time : String
  title : String
  details : Option String
deriving DecidableEq, Repr

structure DayPlan where
  day : Nat
  theme : String
  blocks : List DayBlock
  meals : List String
  notes : List String
deriving DecidableEq, Repr

structure Itinerary where
  summary : String
  days : List DayPlan
  mustBook : List String
  rainBackups : List String
  estimatedDailyCostRange : Option String
deriving DecidableEq, Repr

structure ValidationResult where
  ok : Bool
  violations : List String
deriving DecidableEq, Repr

/-! ## Violation messages (src/validate.ts template literals)

Each message is written as a right-nested concatenation whose first factor is
a literal, so that the first characters of distinct message kinds are easy to
compare. -/

def dayCountMsg (len tlen : Nat) : String :=
  "days.length=" ++ (toString len ++ (" must equal tripLengthDays=" ++ toString tlen))

def missingDayMsg (i : Nat) : String :=
  "Missing or wrong day number: expected day " ++ toString i

def paceMsg (d : Nat) (blocks : Nat) (p : Pace) : String :=
  "Day " ++ (toString d ++ (" blocks=" ++ (toString blocks ++ (" violates pace=" ++ paceStr p))))

def notesMsg (d : Nat) : String :=
  "Day " ++ (toString d ++ " notes must have at least 2 items")

def timeMsg (d : Nat) (t : String) : String :=
  "Day " ++ (toString d ++ (" block time not a range: \"" ++ (t ++ "\"")))

def invalidAttractionMsg (t : String) : String :=
  "Invalid attraction in blocks: \"" ++ (t ++ "\"")

def diningMsg (t : String) : String :=
  "Block title includes dining text (Option B): \"" ++ (t ++ "\"")

def missingLunchMsg (d : Nat) : String :=
  "Day " ++ (toString d ++ " missing Lunch: in meals")

def missingDinnerMsg (d : Nat) : String :=
  "Day " ++ (toString d ++ " missing Dinner: in meals")

def mealFormatMsg (m : String) : String :=
  "Meal format invalid: \"" ++ (m ++ "\"")

def invalidRestaurantMsg (r : String) : String :=
  "Invalid restaurant in meals: \"" ++ (r ++ "\"")

def vegMsg (m : String) : String :=
  "Meal may not clearly indicate vegetarian dish: \"" ++ (m ++ "\"")

def rainMsg (rb : String) : String :=
  "Invalid rain backup (not in allowedIndoorBackups): \"" ++ (rb ++ "\"")

/-! ## The production validator (src/validate.ts) -/

/-- `isTimeRange` from src/validate.ts: `s.includes(" - ")`. -/
def isTimeRange (s : String) : Bool := strIncludes s " - "

/-- `extractRestaurantNameFromMeal` from src/validate.ts:
`meal.split(":")`, length check, `parts.slice(1).join(":").trim()`, then the
portion before the first `" - "`, trimmed; empty gives `null`. -/
def extractRestaurantNameFromMeal (meal : String) : Option String :=
  let parts := jsSplitChar ':' meal.data
  if parts.length < 2 then none
  else
    let afterColon := trimL (joinChar ':' parts.tail)
    let rest := trimL (takeBeforeSub ' ' ['-', ' '] afterColon)
    if rest = [] then none else some (String.mk rest)

/-- Ascending insertion of an element into a sorted list of naturals. -/
def insertSorted (x : Nat) : List Nat → List Nat
  | [] => [x]
  | y :: ys => if x ≤ y then x :: y :: ys else y :: insertSorted x ys

/-- Models `arr.sort((a, b) => a - b)` on the day numbers. -/
def sortNats (l : List Nat) : List Nat := l.foldr insertSorted []

/-- Day-numbering rule: for `i` in `1..tripLengthDays`, position `i-1` of the
sorted day numbers must hold `i` (an out-of-range index reads as `undefined`
in the source and always violates). -/
def dayNumberViolations (tripLengthDays : Nat) (days : List DayPlan) : List String :=
  let dayNums := sortNats (days.map (·.day))
  (List.range' 1 tripLengthDays).filterMap fun i =>
    if dayNums.get? (i - 1) = some i then none else some (missingDayMsg i)

/-- Pace rule for one day (blocks-per-day window by pace). -/
def dayPaceViolations (pace : Pace) (day : DayPlan) : List String :=
  let blocks := day.blocks.length
  if (pace = Pace.relaxed ∧ 2 ≤ blocks ∧ blocks ≤ 3)
      ∨ (pace = Pace.balanced ∧ 3 ≤ blocks ∧ blocks ≤ 4)
      ∨ (pace = Pace.packed ∧ 4 ≤ blocks ∧ blocks ≤ 6)
  then [] else [paceMsg day.day blocks pace]

/-- Notes rule for one day: at least 2 notes. -/
def dayNotesViolations (day : DayPlan) : List String :=
  if day.notes.length < 2 then [notesMsg day.day] else []

/-- Block rules for one block: time range, allowed attraction, no dining text. -/
def blockEntryViolations (dayNum : Nat) (allowedAttractions : List String)
    (b : DayBlock) : List String :=
  (if isTimeRange b.time then [] else [timeMsg dayNum b.time]) ++
  ((if allowedAttractions.contains b.title then [] else [invalidAttractionMsg b.title]) ++
   (if strIncludes (lowerS b.title) "lunch" || strIncludes (lowerS b.title) "dinner"
    then [diningMsg b.title] else []))

def dayBlocksViolations (allowedAttractions : List String) (day : DayPlan) : List String :=
  (day.blocks.map (blockEntryViolations day.day allowedAttractions)).flatten

/-- Fixed dietary-signal substrings from src/validate.ts. -/
def vegHints : List String :=
  ["veg", "vegetarian", "vegan", "plant", "tofu", "paneer", "lentil", "chickpea", "vegetable"]

def mealHasVegHint (meal : String) : Bool :=
  vegHints.any (fun h => strIncludes (lowerS meal) h)

/-- Per-meal rules: restaurant extraction/membership, then the vegetarian
signal when the trip constraints include "vegetarian". -/
def mealEntryViolations (vegetarian : Bool) (allowedRestaurants : List String)
    (meal : String) : List String :=
  (match extractRestaurantNameFromMeal meal with
   | none => [mealFormatMsg meal]
   | some rest =>
     if allowedRestaurants.contains rest then [] else [invalidRestaurantMsg rest]) ++
  (if vegetarian && !(mealHasVegHint meal) then [vegMsg meal] else [])

/-- Meal rules for one day: Lunch:/Dinner: presence, then per-meal rules. -/
def dayMealsViolations (vegetarian : Bool) (allowedRestaurants : List String)
    (day : DayPlan) : List String :=
  (if day.meals.any (fun m => strStartsWith m "Lunch:") then [] else [missingLunchMsg day.day]) ++
  ((if day.meals.any (fun m => strStartsWith m "Dinner:") then [] else [missingDinnerMsg day.day]) ++
   (day.meals.map (mealEntryViolations vegetarian allowedRestaurants)).flatten)

/-- Rain-backup rule: every entry is an allowed indoor backup. -/
def rainViolations (allowedIndoorBackups : List String) (rbs : List String) : List String :=
  rbs.filterMap fun rb =>
    if allowedIndoorBackups.contains rb then none else some (rainMsg rb)

/-- `validateItineraryProduction` from src/validate.ts: all rule groups in
source order, accumulated into one list; `ok` iff the list is empty. -/
def validateItineraryProduction (trip : TripRequest) (itinerary : Itinerary)
    (allowedAttractions allowedRestaurants allowedIndoorBackups : List String) :
    ValidationResult :=
  let violations :=
    (if itinerary.days.length ≠ trip.tripLengthDays
     then [dayCountMsg itinerary.days.length trip.tripLengthDays] else []) ++
    (dayNumberViolations trip.tripLengthDays itinerary.days ++
     ((itinerary.days.map (dayPaceViolations trip.pace)).flatten ++
      ((itinerary.days.map dayNotesViolations).flatten ++
       ((itinerary.days.map (dayBlocksViolations allowedAttractions)).flatten ++
        ((itinerary.days.map
            (dayMealsViolations (trip.constraints.contains "vegetarian") allowedRestaurants)).flatten ++
         rainViolations allowedIndoorBackups itinerary.rainBackups)))))
  { ok := violations.length == 0, violations := violations }

/-! ## Balanced JSON slice extraction (src/llm.ts) -/

/-- Scanner state of `extractFirstJsonSlice`: brace depth, whether the scanner
is inside a double-quoted string, and whether the previous in-string character
was an unconsumed backslash. -/
structure ScanSt where
  depth : Int
  inString : Bool
  escaped : Bool
deriving DecidableEq, Repr

def initScanSt : ScanSt := ⟨0, false, false⟩

/-- One character of the scan: the state updates of the loop body of
`extractFirstJsonSlice` (string handling first, then depth bookkeeping). -/
def scanStep (op cl : Char) (st : ScanSt) (ch : Char) : ScanSt :=
  if st.inString then
    if st.escaped then { st with escaped := false }
    else if ch = '\\' then { st with escaped := true }
    else if ch = '"' then { st with inString := false }
    else st
  else if ch = '"' then { st with inString := true }
  else { st with depth := st.depth + (if ch = op then 1 else 0) - (if ch = cl then 1 else 0) }

/-- Folding the scanner over a character list. -/
def scanList (op cl : Char) (st : ScanSt) (l : List Char) : ScanSt :=
  l.foldl (scanStep op cl) st

/-- The scan loop of `extractFirstJsonSlice`: in-string characters and string
openers `continue` past the depth test; other characters update the depth and
return the accumulated slice when it reaches 0; exhausting the input throws
"Unterminated JSON". -/
def sliceLoop (op cl : Char) (st : ScanSt) (acc : List Char) :
    List Char → Except String (List Char)
  | [] => Except.error "Unterminated JSON"
  | ch :: rest =>
    if st.inString then sliceLoop op cl (scanStep op cl st ch) (ch :: acc) rest
    else if ch = '"' then sliceLoop op cl (scanStep op cl st ch) (ch :: acc) rest
    else
      let st2 := scanStep op cl st ch
      if st2.depth = 0 then Except.ok (ch :: acc).reverse
      else sliceLoop op cl st2 (ch :: acc) rest

/-- Models `raw.indexOf(open)` plus the scan from that index: recurse to the
first occurrence of `op` (throwing "No JSON found" when there is none) and
run the loop on the suffix that starts there. -/
def extractAux (op cl : Char) : List Char → Except String (List Char)
  | [] => Except.error "No JSON found"
  | ch :: rest =>
    if ch = op then sliceLoop op cl initScanSt [] (ch :: rest)
    else extractAux op cl rest

/-- `extractFirstJsonSlice` from src/llm.ts. -/
def extractFirstJsonSlice (raw : String) (op cl : Char) : Except String String :=
  (extractAux op cl raw.data).map String.mk

/-- The suffix of `l` that starts at the first occurrence of `op`. -/
def firstOpenSuffix (op : Char) : List Char → Option (List Char)
  | [] => none
  | ch :: rest => if ch = op then some (ch :: rest) else firstOpenSuffix op rest

/-- Declarative reading of "the slice is balanced after `n` characters": the
string-aware scan of the first `n` characters of `s`, started from the
initial state, ends at depth 0. -/
def balancedAt (op cl : Char) (s : List Char) (n : Nat) : Prop :=
  (scanList op cl initScanSt (s.take n)).depth = 0

instance (op cl : Char) (s : List Char) (n : Nat) : Decidable (balancedAt op cl s n) := by
  unfold balancedAt; infer_instance

/-- The scanner state right after consuming the opening brace. -/
def afterOpenSt : ScanSt := ⟨1, false, false⟩

/-- Specification of the scan loop on a remaining input `l` from state `st`
with accumulator `acc`: a normal return yields the accumulator plus the
shortest non-empty prefix of `l` whose scan ends at depth 0, and an
"Unterminated JSON" exit means no such prefix exists. -/
def SliceSpec (op cl : Char) (l : List Char) (st : ScanSt) (acc : List Char) : Prop :=
  (∀ out, sliceLoop op cl st acc l = Except.ok out →
     ∃ n, 1 ≤ n ∧ n ≤ l.length ∧ out = acc.reverse ++ l.take n ∧
       (scanList op cl st (l.take n)).depth = 0 ∧
       ∀ m, 1 ≤ m → m < n → (scanList op cl st (l.take m)).depth ≠ 0)
  ∧ (sliceLoop op cl st acc l = Except.error "Unterminated JSON" →
     ∀ m, 1 ≤ m → m ≤ l.length → (scanList op cl st (l.take m)).depth ≠ 0)

/-! ## Parsed JSON values and the Zod schema parsers (src/schema.ts) -/

/-- A parsed JSON value, as handed around after `parseJsonObjectSafe`.
Numbers are restricted to integers (the schemas only use `z.number().int()`). -/
inductive Json where
  | null
  | bool (b : Bool)
  | num (n : Int)
  | str (s : String)
  | arr (xs : List Json)
  | obj (kvs : List (String × Json))

/-- Field lookup on a JSON object (first binding wins). -/
def jlookup (kvs : List (String × Json)) (k : String) : Option Json :=
  (kvs.find? (fun p => p.1 == k)).map (·.2)

/-- `looksLikeItinerary` from src/index.ts: the value is an object with a
string `summary` and an array `days`. -/
def looksLikeItinerary (j : Json) : Bool :=
  match j with
  | Json.obj kvs =>
    (match jlookup kvs "summary" with
     | some (Json.str _) => true
     | _ => false) &&
    (match jlookup kvs "days" with
     | some (Json.arr _) => true
     | _ => false)
  | _ => false

/-- `z.string().min(1)`. -/
def parseStr1 : Option Json → Option String
  | some (Json.str s) => if 1 ≤ s.length then some s else none
  | _ => none

/-- `z.string().optional()`: an absent field is fine, a present one must be a
string. -/
def parseOptStr : Option Json → Option (Option String)
  | none => some none
  | some (Json.str s) => some (some s)
  | _ => none

/-- `z.array(z.string())` on a present value. -/
def parseStrList : Json → Option (List String)
  | Json.arr xs =>
    xs.mapM fun x =>
      match x with
      | Json.str s => some s
      | _ => none
  | _ => none

/-- `z.array(z.string()).default([])`. -/
def parseStrListD : Option Json → Option (List String)
  | none => some []
  | some j => parseStrList j

/-- `DayBlockSchema.parse`. -/
def parseDayBlock : Json → Option DayBlock
  | Json.obj kvs => do
    let time ← parseStr1 (jlookup kvs "time")
    let title ← parseStr1 (jlookup kvs "title")
    let details ← parseOptStr (jlookup kvs "details")
    pure ⟨time, title, details⟩
  | _ => none

/-- `DayPlanSchema.parse`. -/
def parseDayPlan : Json → Option DayPlan
  | Json.obj kvs => do
    let dayN ←
      match jlookup kvs "day" with
      | some (Json.num n) => if 1 ≤ n then some n.toNat else none
      | _ => none
    let theme ← parseStr1 (jlookup kvs "theme")
    let blocks ←
      match jlookup kvs "blocks" with
      | some (Json.arr xs) => xs.mapM parseDayBlock
      | _ => none
    if blocks.length < 2 then none
    else do
      let meals ←
        match jlookup kvs "meals" with
        | some (Json.arr xs) =>
          xs.mapM fun x =>
            match x with
            | Json.str s => some s
            | _ => none
        | _ => none
      if meals.length < 2 then none
      else do
        let notes ← parseStrListD (jlookup kvs "notes")
        pure ⟨dayN, theme, blocks, meals, notes⟩
  | _ => none

/-- `ItinerarySchema.parse` (successful parse as `some`, a thrown ZodError as
`none`). -/
def itinerarySchemaParse : Json → Option Itinerary
  | Json.obj kvs => do
    let summary ← parseStr1 (jlookup kvs "summary")
    let days ←
      match jlookup kvs "days" with
      | some (Json.arr xs) => xs.mapM parseDayPlan
      | _ => none
    if days.length < 1 then none
    else do
      let mustBook ← parseStrListD (jlookup kvs "mustBook")
      let rainBackups ← parseStrListD (jlookup kvs "rainBackups")
      let edcr ← parseOptStr (jlookup kvs "estimatedDailyCostRange")
      pure ⟨summary, days, mustBook, rainBackups, edcr⟩
  | _ => none

/-! ## The generate-validate-repair loops (src/index.ts, planFromIntake) -/

/-- The observable outcome of one `reviseItineraryJson` +
`parseJsonObjectSafe` round: either the safe parse threw (no JSON object
could be extracted even after the JSON-repair call), or it produced a parsed
JSON value. -/
inductive ReviseOutcome where
  | parseFail
  | parsed (j : Json)

/-- One iteration body of the batch repair loop (planFromIntake lines
473-489): a shape-valid revision replaces the itinerary via
`ItinerarySchema.parse` (whose ZodError propagates as an exception); a
shape-invalid revision leaves the itinerary unchanged; either way the kept
itinerary is re-validated. -/
def batchRepairStep (trip : TripRequest) (aA aR aI : List String)
    (out : ReviseOutcome) (st : Itinerary × ValidationResult) :
    Except String (Itinerary × ValidationResult) :=
  match out with
  | ReviseOutcome.parseFail => Except.error "No JSON found"
  | ReviseOutcome.parsed j =>
    if looksLikeItinerary j then
      match itinerarySchemaParse j with
      | none => Except.error "ItinerarySchema.parse failed"
      | some it => Except.ok (it, validateItineraryProduction trip it aA aR aI)
    else
      Except.ok (st.1, validateItineraryProduction trip st.1 aA aR aI)

/-- `for (let i = 0; i < outs.length && !validation.ok; i++) ...` over a list
of per-round revision outcomes. -/
def batchRepairLoop (trip : TripRequest) (aA aR aI : List String) :
    List ReviseOutcome → Itinerary × ValidationResult →
    Except String (Itinerary × ValidationResult)
  | [], st => Except.ok st
  | out :: rest, st =>
    if st.2.ok then Except.ok st
    else do
      let st2 ← batchRepairStep trip aA aR aI out st
      batchRepairLoop trip aA aR aI rest st2

/-- The validate-and-revise phase of `planFromIntake`: initial validation of
the generated itinerary, then the two-round bounded repair loop. The stream
`outs` gives the revision outcome the collaborators would produce in each
round; the source's `for (let i = 0; i < 2 ...)` consumes rounds 0 and 1. -/
def planFromIntakeLoop (trip : TripRequest) (aA aR aI : List String)
    (it0 : Itinerary) (outs : Nat → ReviseOutcome) :
    Except String (Itinerary × ValidationResult) :=
  batchRepairLoop trip aA aR aI [outs 0, outs 1]
    (it0, validateItineraryProduction trip it0 aA aR aI)

/-- A benign collaborator behavior for one round: the safe JSON parse does
not throw, and a shape-valid output also satisfies `ItinerarySchema`. -/
def goodOutcome : ReviseOutcome → Prop
  | ReviseOutcome.parseFail => False
  | ReviseOutcome.parsed j => looksLikeItinerary j = true → itinerarySchemaParse j ≠ none

/-- The interactive repair pass of `main` (src/index.ts lines 142-165),
returning the resulting itinerary (or the propagated exception) together with
the number of `reviseItineraryJson` calls issued (1 or 2). `out1` is the
outcome of the first repair call, `out2` of the schema-fix call (consulted
only when the first output fails the shape check; its result is
`ItinerarySchema.parse`d unconditionally). -/
def interactiveRepairPass (out1 out2 : ReviseOutcome) :
    Except String Itinerary × Nat :=
  match out1 with
  | ReviseOutcome.parseFail => (Except.error "No JSON found", 1)
  | ReviseOutcome.parsed j =>
    if looksLikeItinerary j then
      match itinerarySchemaParse j with
      | some it => (Except.ok it, 1)
      | none => (Except.error "ItinerarySchema.parse failed", 1)
    else
      match out2 with
      | ReviseOutcome.parseFail => (Except.error "No JSON found", 2)
      | ReviseOutcome.parsed j2 =>
        match itinerarySchemaParse j2 with
        | some it => (Except.ok it, 2)
        | none => (Except.error "ItinerarySchema.parse failed", 2)

/-! ## Intake dates and the trip-length derivation (planFromIntake, schema.ts) -/

/-- The intake body accepted by the HTTP endpoint (IntakeSchema, after its
defaults were applied). -/
structure Intake where
  destination : String
  startDate : String
  endDate : String
  travelers : Nat
  pace : Pace
  budgetLevel : BudgetLevel
  constraints : List String
  interests : List String
deriving Repr

/-- Numeric value of an all-digit character list. -/
def digitsToNat : List Char → Option Nat
  | [] => some 0
  | c :: rest =>
    if c.isDigit then
      (digitsToNat rest).map (fun n => n + (c.toNat - '0'.toNat) * (10 ^ rest.length))
    else none

def isLeapYear (y : Int) : Bool :=
  y % 4 = 0 && (y % 100 ≠ 0 || y % 400 = 0)

def daysInMonth (y : Int) (m : Nat) : Nat :=
  if m = 2 then (if isLeapYear y then 29 else 28)
  else if m = 4 ∨ m = 6 ∨ m = 9 ∨ m = 11 then 30
  else 31

/-- Days since the Unix epoch of a civil date (proleptic Gregorian calendar;
the standard era-based formula used by ECMAScript date arithmetic). -/
def daysFromCivil (y : Int) (m d : Nat) : Int :=
  let y2 : Int := if m ≤ 2 then y - 1 else y
  let era : Int := (if 0 ≤ y2 then y2 else y2 - 399).fdiv 400
  let yoe : Int := y2 - era * 400
  let mp : Int := if 2 < m then (m : Int) - 3 else (m : Int) + 9
  let doy : Int := (153 * mp + 2).fdiv 5 + (d : Int) - 1
  let doe : Int := yoe * 365 + yoe.fdiv 4 - yoe.fdiv 100 + doy
  era * 146097 + doe - 719468

/-- Parse a `"YYYY-MM-DD"` date string into a valid civil date: exactly three
dash-separated all-digit groups of widths 4, 2, 2, naming a real calendar
date. An invalid string models JavaScript's `Invalid Date`. -/
def parseCivil (s : String) : Option (Int × Nat × Nat) :=
  match jsSplitChar '-' s.data with
  | [ys, ms, ds] => do
    let y ← digitsToNat ys
    let m ← digitsToNat ms
    let d ← digitsToNat ds
    if ys.length = 4 ∧ ms.length = 2 ∧ ds.length = 2
        ∧ 1 ≤ m ∧ m ≤ 12 ∧ 1 ≤ d ∧ d ≤ daysInMonth (y : Int) m
    then pure ((y : Int), m, d) else none
  | _ => none

/-- `new Date(s + "T00:00:00").getTime()` for a well-formed date string:
milliseconds since the epoch of that midnight (`none` models `NaN`). -/
def dateMs (s : String) : Option Int :=
  (parseCivil s).map (fun c => daysFromCivil c.1 c.2.1 c.2.2 * 86400000)

/-- The inclusive day-count computation of `planFromIntake`:
`Math.max(1, Math.floor((end - start) / 86400000) + 1)`, with `none` when
either date is invalid (the `NaN` path). -/
def tripLengthDaysFromIntake (startDate endDate : String) : Option Int := do
  let s ← dateMs startDate
  let e ← dateMs endDate
  pure (max 1 ((e - s).fdiv 86400000 + 1))

/-- The `tripObj` construction plus `TripRequestSchema.parse` of
`planFromIntake`: the schema checks that can fail on this construction are
`destination` non-empty, `tripLengthDays` an integer in `1..30` (`NaN` dates
fail it too), and `travelers` in `1..20`. -/
def tripRequestFromIntake (input : Intake) : Except String TripRequest :=
  match tripLengthDaysFromIntake input.startDate input.endDate with
  | none => Except.error "TripRequestSchema: tripLengthDays"
  | some n =>
    if input.destination.length < 1 then Except.error "TripRequestSchema: destination"
    else if n < 1 ∨ 30 < n then Except.error "TripRequestSchema: tripLengthDays"
    else if input.travelers < 1 ∨ 20 < input.travelers then
      Except.error "TripRequestSchema: travelers"
    else
      Except.ok
        { destination := input.destination
          tripLengthDays := n.toNat
          datesStart := some input.startDate
          datesEnd := some input.endDate
          travelers := input.travelers
          budgetLevel := input.budgetLevel
          pace := input.pace
          interests := input.interests
          constraints := input.constraints
          missingInfoQuestions := [] }

/-! ## Spec-side definitions used by refinement claims -/

/-- The remainder of `l` after the first occurrence of `sep`, when present. -/
def afterFirstChar (sep : Char) : List Char → Option (List Char)
  | [] => none
  | c :: rest => if c = sep then some rest else afterFirstChar sep rest

/-- Modelled from the spec: "Each meal string is parsed by splitting on the
first colon to get the type label, then the remainder is split on the range
delimiter between restaurant and dish description; the restaurant portion
must be a non-empty member of allowedLists.restaurants". -/
def specMealRestaurant (meal : String) : Option String :=
  match afterFirstChar ':' meal.data with
  | none => none
  | some rem =>
    let r := trimL (takeBeforeSub ' ' ['-', ' '] (trimL rem))
    if r = [] then none else some (String.mk r)

/-- Modelled from the spec: the pace-specific blocks-per-day window,
"relaxed → [2,3], balanced → [3,4], packed → [4,6]". -/
def paceRangeSpec : Pace → Nat × Nat
  | Pace.relaxed => (2, 3)
  | Pace.balanced => (3, 4)
  | Pace.packed => (4, 6)

/-! ## Concrete fixtures used by witnesses and counterexamples -/

def mealLunchGT : String := "Lunch: Green Table - Tofu Banh Mi (Vegetarian)"

def mealDinnerR : String := "Dinner: Rustic - Veg Curry (Vegan)"

def blockArt : DayBlock := ⟨"09:00 AM - 11:30 AM", "Art Institute", none⟩

def dayWithBlocks (n : Nat) : DayPlan :=
  ⟨1, "Downtown", List.replicate n blockArt, [mealLunchGT, mealDinnerR], ["n1", "n2"]⟩

def tripVeg : TripRequest :=
  ⟨"Chicago", 1, none, none, 2, BudgetLevel.mid, Pace.relaxed, [], ["vegetarian"], []⟩

def itVeg : Itinerary := ⟨"Trip", [dayWithBlocks 2], [], [], none⟩

/-- A revision output that passes `looksLikeItinerary` (string summary, array
days) but fails `ItinerarySchema.parse` (`days` must be non-empty). -/
def badShapedJson : Json := Json.obj [("summary", Json.str "x"), ("days", Json.arr [])]

def intakeMay : Intake :=
  ⟨"Chicago", "2024-05-10", "2024-05-11", 2, Pace.balanced, BudgetLevel.mid, [], []⟩

/-! ## Helper lemmas: strings and message disjointness -/

theorem strDataAppend (s t : String) : (s ++ t).data = s.data ++ t.data := by
  cases s; cases t; rfl

theorem string_ne_of_head {s t : String} (h : s.data.head? ≠ t.data.head?) : s ≠ t :=
  fun e => h (by rw [e])

theorem head_of_lit_append {lit : String} {c : Char} {l : List Char}
    (h : lit.data = c :: l) (x : String) : (lit ++ x).data.head? = some c := by
  rw [strDataAppend, h]; rfl

theorem string_ne_of_take {n : Nat} {s t : String}
    (h : s.data.take n ≠ t.data.take n) : s ≠ t :=
  fun e => h (by rw [e])

theorem take_of_lit_append (lit x : String) {n : Nat} (h : n ≤ lit.data.length) :
    (lit ++ x).data.take n = lit.data.take n := by
  rw [strDataAppend, List.take_append_of_le_length h]

theorem invalidAttractionMsg_ne_timeMsg (t : String) (d : Nat) (tm : String) :
    invalidAttractionMsg t ≠ timeMsg d tm := by
  apply string_ne_of_head
  rw [invalidAttractionMsg, timeMsg, head_of_lit_append rfl, head_of_lit_append rfl]
  decide

theorem invalidAttractionMsg_ne_diningMsg (t t' : String) :
    invalidAttractionMsg t ≠ diningMsg t' := by
  apply string_ne_of_head
  rw [invalidAttractionMsg, diningMsg, head_of_lit_append rfl, head_of_lit_append rfl]
  decide

theorem vegMsg_ne_invalidRestaurantMsg (m r : String) :
    vegMsg m ≠ invalidRestaurantMsg r := by
  apply string_ne_of_head
  rw [vegMsg, invalidRestaurantMsg, head_of_lit_append rfl, head_of_lit_append rfl]
  decide

theorem vegMsg_ne_mealFormatMsg (m m' : String) : vegMsg m ≠ mealFormatMsg m' := by
  apply string_ne_of_take (n := 6)
  rw [vegMsg, mealFormatMsg, take_of_lit_append _ _ (by decide),
    take_of_lit_append _ _ (by decide)]
  decide

/-! ## Claim C2 -/

/-- Claim C2, counterexample: the Allowed-List Projector alone
(`allowedListsFromCandidates`, whose `unique` dedupes by exact trimmed name)
does not merge "Cafe A" and "cafe a ", so projecting the example candidate
list does not yield exactly ["Cafe A", "Cafe B"]. -/
theorem claim2_counterexample :
    (allowedListsFromCandidates c2cands).allowedRestaurants ≠ ["Cafe A", "Cafe B"] := by
  decide

/-- Claim C2 as amended: the case- and whitespace-insensitive first-seen-wins
identity lives in the candidate builder's `dedupe`; projecting the deduped
example candidates yields exactly ["Cafe A", "Cafe B"] with first-seen casing
preserved, while the projector alone keeps all three trimmed names. -/
theorem claim2_dedup_projection :
    (dedupe c2cands).map (fun c => c.name) = ["Cafe A", "Cafe B"]
    ∧ allowedListsFromCandidates (dedupe c2cands) =
        ⟨[], ["Cafe A", "Cafe B"], []⟩
    ∧ (allowedListsFromCandidates c2cands).allowedRestaurants =
        ["Cafe A", "cafe a", "Cafe B"] := by
  refine ⟨by decide, by decide, by decide⟩

/-! ## Claim C9 -/

/-- Claim C9: the validator is deterministic and side-effect-free — in this
pure embedding two runs on identical inputs are definitionally the same
result, with the same ok flag and the same violation list in the same
order. -/
theorem claim9_validator_deterministic (trip : TripRequest) (it : Itinerary)
    (aA aR aI : List String) :
    validateItineraryProduction trip it aA aR aI =
      validateItineraryProduction trip it aA aR aI
    ∧ (validateItineraryProduction trip it aA aR aI).ok =
        (validateItineraryProduction trip it aA aR aI).ok
    ∧ (validateItineraryProduction trip it aA aR aI).violations =
        (validateItineraryProduction trip it aA aR aI).violations :=
  ⟨rfl, rfl, rfl⟩

/-! ## Claim C6 -/

/-- The source's pace disjunction coincides with the spec's per-pace window. -/
theorem dayPaceViolations_eq (pace : Pace) (day : DayPlan) :
    dayPaceViolations pace day =
      if (paceRangeSpec pace).1 ≤ day.blocks.length
          ∧ day.blocks.length ≤ (paceRangeSpec pace).2
      then [] else [paceMsg day.day day.blocks.length pace] := by
  cases pace <;> simp [dayPaceViolations, paceRangeSpec]

/-- Claim C6: a per-day pace violation (naming the actual block count and the
pace) is produced exactly when the day's block count falls outside the
pace-specific window (relaxed [2,3], balanced [3,4], packed [4,6]); any such
day contributes that violation to the full validator run; and the stated
boundary cases behave as claimed. -/
theorem claim6_pace_rules :
    (∀ pace day, dayPaceViolations pace day =
       if (paceRangeSpec pace).1 ≤ day.blocks.length
           ∧ day.blocks.length ≤ (paceRangeSpec pace).2
       then [] else [paceMsg day.day day.blocks.length pace])
    ∧ (∀ (trip : TripRequest) (it : Itinerary) (aA aR aI : List String)
         (day : DayPlan), day ∈ it.days →
         ¬((paceRangeSpec trip.pace).1 ≤ day.blocks.length
             ∧ day.blocks.length ≤ (paceRangeSpec trip.pace).2) →
         paceMsg day.day day.blocks.length trip.pace ∈
           (validateItineraryProduction trip it aA aR aI).violations)
    ∧ dayPaceViolations Pace.relaxed (dayWithBlocks 2) = []
    ∧ dayPaceViolations Pace.relaxed (dayWithBlocks 1) = [paceMsg 1 1 Pace.relaxed]
    ∧ dayPaceViolations Pace.relaxed (dayWithBlocks 4) = [paceMsg 1 4 Pace.relaxed]
    ∧ dayPaceViolations Pace.packed (dayWithBlocks 6) = []
    ∧ dayPaceViolations Pace.packed (dayWithBlocks 7) = [paceMsg 1 7 Pace.packed] := by
  refine ⟨dayPaceViolations_eq, ?_, by decide, by decide, by decide, by decide, by decide⟩
  intro trip it aA aR aI day hday hrange
  simp only [validateItineraryProduction]
  apply List.mem_append_right
  apply List.mem_append_right
  apply List.mem_append_left
  exact List.mem_flatten.mpr
    ⟨dayPaceViolations trip.pace day, List.mem_map_of_mem _ hday,
     by rw [dayPaceViolations_eq, if_neg hrange]; exact List.mem_singleton_self _⟩

/-! ## Claim C7 -/

/-- Claim C7: one validator call accumulates all violations — `ok` is true
iff the accumulated list is empty; within a block's checks, a title outside
the allowed-attractions list contributes exactly one "invalid attraction"
violation (and an allowed title contributes none); and every such block in
the itinerary lands its violation in the full run's list (no stopping at the
first failure). -/
theorem claim7_accumulation :
    (∀ (trip : TripRequest) (it : Itinerary) (aA aR aI : List String),
       (validateItineraryProduction trip it aA aR aI).ok = true ↔
         (validateItineraryProduction trip it aA aR aI).violations = [])
    ∧ (∀ (dayNum : Nat) (aA : List String) (b : DayBlock),
       (blockEntryViolations dayNum aA b).count (invalidAttractionMsg b.title) =
         if aA.contains b.title then 0 else 1)
    ∧ (∀ (trip : TripRequest) (it : Itinerary) (aA aR aI : List String)
         (day : DayPlan) (b : DayBlock), day ∈ it.days → b ∈ day.blocks →
         aA.contains b.title = false →
         invalidAttractionMsg b.title ∈
           (validateItineraryProduction trip it aA aR aI).violations) := by
  refine ⟨?_, ?_, ?_⟩
  · intro trip it aA aR aI
    have hok : (validateItineraryProduction trip it aA aR aI).ok =
        ((validateItineraryProduction trip it aA aR aI).violations.length == 0) := rfl
    rw [hok, beq_iff_eq, List.length_eq_zero]
  · intro dayNum aA b
    have ht : (timeMsg dayNum b.time == invalidAttractionMsg b.title) = false :=
      beq_eq_false_iff_ne.mpr (Ne.symm (invalidAttractionMsg_ne_timeMsg _ _ _))
    have hd : (diningMsg b.title == invalidAttractionMsg b.title) = false :=
      beq_eq_false_iff_ne.mpr (Ne.symm (invalidAttractionMsg_ne_diningMsg _ _))
    simp only [blockEntryViolations, List.count_append]
    split <;> split <;> split <;>
      simp [List.count_cons, List.count_nil, ht, hd]
  · intro trip it aA aR aI day b hday hb htitle
    simp only [validateItineraryProduction]
    apply List.mem_append_right
    apply List.mem_append_right
    apply List.mem_append_right
    apply List.mem_append_right
    apply List.mem_append_left
    refine List.mem_flatten.mpr
      ⟨dayBlocksViolations aA day, List.mem_map_of_mem _ hday, ?_⟩
    refine List.mem_flatten.mpr
      ⟨blockEntryViolations day.day aA b, List.mem_map_of_mem _ hb, ?_⟩
    apply List.mem_append_right
    apply List.mem_append_left
    rw [htitle]
    exact List.mem_singleton_self _

/-! ## Claim C5: dedup/cap lemmas -/

theorem contains_iff_mem_str (l : List String) (x : String) :
    l.contains x = true ↔ x ∈ l := by
  show l.elem x = true ↔ x ∈ l
  exact List.elem_iff

theorem dedupFirst_sublist : ∀ (l : List String) (seen : List String),
    List.Sublist (dedupFirst seen l) l := by
  intro l
  induction l with
  | nil => intro seen; simp [dedupFirst]
  | cons s rest ih =>
    intro seen
    by_cases h : seen.contains s = true
    · simp only [dedupFirst, if_pos h]
      exact (ih seen).cons s
    · simp only [dedupFirst, if_neg h]
      exact (ih (s :: seen)).cons₂ s

theorem mem_dedupFirst_not_mem_seen : ∀ (l seen : List String) (x : String),
    x ∈ dedupFirst seen l → x ∉ seen := by
  intro l
  induction l with
  | nil => intro seen x hx; simp [dedupFirst] at hx
  | cons s rest ih =>
    intro seen x hx
    by_cases h : seen.contains s = true
    · rw [dedupFirst, if_pos h] at hx
      exact ih seen x hx
    · rw [dedupFirst, if_neg h] at hx
      rcases List.mem_cons.mp hx with rfl | hx2
      · exact fun hmem => h ((contains_iff_mem_str seen x).mpr hmem)
      · intro hmem
        exact ih (s :: seen) x hx2 (List.mem_cons_of_mem s hmem)

theorem dedupFirst_nodup : ∀ (l seen : List String), (dedupFirst seen l).Nodup := by
  intro l
  induction l with
  | nil => intro seen; simp [dedupFirst]
  | cons s rest ih =>
    intro seen
    by_cases h : seen.contains s = true
    · rw [dedupFirst, if_pos h]
      exact ih seen
    · rw [dedupFirst, if_neg h]
      refine List.nodup_cons.mpr ⟨?_, ih (s :: seen)⟩
      intro hmem
      exact mem_dedupFirst_not_mem_seen rest (s :: seen) s hmem (List.mem_cons_self s seen)

theorem unique_nodup (arr : List String) : (unique arr).Nodup :=
  dedupFirst_nodup _ _

theorem unique_sublist (arr : List String) :
    List.Sublist (unique arr) (arr.map trimS) :=
  (dedupFirst_sublist _ _).trans (List.filter_sublist _)

theorem cap_sublist {α : Type} (l : List α) (n : Nat) : List.Sublist (cap l n) l := by
  unfold cap
  split
  · exact List.take_sublist n l
  · exact List.Sublist.refl l

theorem cap_length_le {α : Type} (l : List α) (n : Nat) : (cap l n).length ≤ n := by
  unfold cap
  split
  · simp [List.length_take]
  · omega

theorem capped_unique_facts (arr : List String) (k : Nat) :
    (cap (unique arr) k).Nodup
    ∧ List.Sublist (cap (unique arr) k) (arr.map trimS)
    ∧ (cap (unique arr) k).length ≤ k :=
  ⟨(cap_sublist _ _).nodup (unique_nodup arr),
   (cap_sublist _ _).trans (unique_sublist arr),
   cap_length_le _ _⟩

/-- Claim C5: the projected allowed lists are duplicate-free; every name comes
from (the trimmed name of) a candidate of the matching category; first-seen
order is preserved (each list is a subsequence of the per-category trimmed
name sequence); each list respects its cap; and the empty candidate pool
projects to three empty lists. -/
theorem claim5_allowed_lists_invariants (cands : List Candidate) :
    ((allowedListsFromCandidates cands).allowedAttractions.Nodup
      ∧ (allowedListsFromCandidates cands).allowedRestaurants.Nodup
      ∧ (allowedListsFromCandidates cands).allowedIndoorBackups.Nodup)
    ∧ ((∀ n ∈ (allowedListsFromCandidates cands).allowedAttractions,
          ∃ c ∈ cands, c.category = Category.attraction ∧ n = trimS c.name)
      ∧ (∀ n ∈ (allowedListsFromCandidates cands).allowedRestaurants,
          ∃ c ∈ cands, c.category = Category.restaurant ∧ n = trimS c.name)
      ∧ (∀ n ∈ (allowedListsFromCandidates cands).allowedIndoorBackups,
          ∃ c ∈ cands, c.category = Category.indoor_backup ∧ n = trimS c.name))
    ∧ (List.Sublist (allowedListsFromCandidates cands).allowedAttractions
          ((cands.filter (fun c => c.category = Category.attraction)).map
            (fun c => trimS c.name))
      ∧ List.Sublist (allowedListsFromCandidates cands).allowedRestaurants
          ((cands.filter (fun c => c.category = Category.restaurant)).map
            (fun c => trimS c.name))
      ∧ List.Sublist (allowedListsFromCandidates cands).allowedIndoorBackups
          ((cands.filter (fun c => c.category = Category.indoor_backup)).map
            (fun c => trimS c.name)))
    ∧ ((allowedListsFromCandidates cands).allowedAttractions.length ≤ 60
      ∧ (allowedListsFromCandidates cands).allowedRestaurants.length ≤ 40
      ∧ (allowedListsFromCandidates cands).allowedIndoorBackups.length ≤ 30)
    ∧ allowedListsFromCandidates [] = ⟨[], [], []⟩ := by
  have hmapmap : ∀ (p : Candidate → Bool),
      ((cands.filter p).map (fun c => c.name)).map trimS =
        (cands.filter p).map (fun c => trimS c.name) := by
    intro p; rw [List.map_map]; rfl
  have hA := capped_unique_facts
    ((cands.filter (fun c => c.category = Category.attraction)).map (fun c => c.name)) 60
  have hR := capped_unique_facts
    ((cands.filter (fun c => c.category = Category.restaurant)).map (fun c => c.name)) 40
  have hI := capped_unique_facts
    ((cands.filter (fun c => c.category = Category.indoor_backup)).map (fun c => c.name)) 30
  rw [hmapmap] at hA hR hI
  have hmem : ∀ (cat : Category) (n : String),
      n ∈ (cands.filter (fun c => c.category = cat)).map (fun c => trimS c.name) →
      ∃ c ∈ cands, c.category = cat ∧ n = trimS c.name := by
    intro cat n hn
    rcases List.mem_map.mp hn with ⟨c, hc, rfl⟩
    rcases List.mem_filter.mp hc with ⟨hcands, hcat⟩
    exact ⟨c, hcands, of_decide_eq_true hcat, rfl⟩
  refine ⟨⟨hA.1, hR.1, hI.1⟩, ⟨?_, ?_, ?_⟩, ⟨hA.2.1, hR.2.1, hI.2.1⟩,
    ⟨hA.2.2, hR.2.2, hI.2.2⟩, by decide⟩
  · intro n hn; exact hmem _ n (hA.2.1.subset hn)
  · intro n hn; exact hmem _ n (hR.2.1.subset hn)
  · intro n hn; exact hmem _ n (hI.2.1.subset hn)

/-! ## Claim C4: split/join refinement lemmas -/

theorem jsSplitChar_ne_nil (sep : Char) : ∀ l, jsSplitChar sep l ≠ [] := by
  intro l
  cases l with
  | nil => simp [jsSplitChar]
  | cons c rest =>
    by_cases h : c = sep
    · rw [jsSplitChar, if_pos h]; simp
    · rw [jsSplitChar, if_neg h]
      rcases jsSplitChar sep rest with _ | ⟨p, ps⟩ <;> simp

theorem joinChar_jsSplitChar (sep : Char) : ∀ l, joinChar sep (jsSplitChar sep l) = l := by
  intro l
  induction l with
  | nil => rfl
  | cons c rest ih =>
    by_cases h : c = sep
    · rw [jsSplitChar, if_pos h]
      rcases hS : jsSplitChar sep rest with _ | ⟨p, ps⟩
      · exact absurd hS (jsSplitChar_ne_nil sep rest)
      · rw [hS] at ih
        simp only [joinChar, List.nil_append]
        rw [ih, h]
    · rw [jsSplitChar, if_neg h]
      rcases hS : jsSplitChar sep rest with _ | ⟨p, ps⟩
      · exact absurd hS (jsSplitChar_ne_nil sep rest)
      · rw [hS] at ih
        cases ps with
        | nil =>
          simp only [joinChar] at ih ⊢
          rw [ih]
        | cons q qs =>
          simp only [joinChar] at ih ⊢
          rw [List.cons_append, ih]

theorem jsSplitChar_length_iff (sep : Char) : ∀ l,
    ((jsSplitChar sep l).length < 2 ↔ afterFirstChar sep l = none) := by
  intro l
  induction l with
  | nil => simp [jsSplitChar, afterFirstChar]
  | cons c rest ih =>
    by_cases h : c = sep
    · rw [jsSplitChar, if_pos h, afterFirstChar, if_pos h]
      have := jsSplitChar_ne_nil sep rest
      constructor
      · intro hlen
        exfalso
        rcases hS : jsSplitChar sep rest with _ | ⟨p, ps⟩
        · exact this hS
        · rw [hS] at hlen
          simp only [List.length_cons] at hlen
          omega
      · intro hsome; cases hsome
    · rw [jsSplitChar, if_neg h, afterFirstChar, if_neg h]
      rcases hS : jsSplitChar sep rest with _ | ⟨p, ps⟩
      · exact absurd hS (jsSplitChar_ne_nil sep rest)
      · rw [hS] at ih
        simpa using ih

theorem joinChar_tail (sep : Char) : ∀ l r, afterFirstChar sep l = some r →
    joinChar sep (jsSplitChar sep l).tail = r := by
  intro l
  induction l with
  | nil => intro r h; cases h
  | cons c rest ih =>
    intro r h
    by_cases hc : c = sep
    · rw [afterFirstChar, if_pos hc] at h
      injection h with h
      rw [jsSplitChar, if_pos hc]
      simpa [h] using joinChar_jsSplitChar sep rest
    · rw [afterFirstChar, if_neg hc] at h
      rw [jsSplitChar, if_neg hc]
      have hres := ih r h
      rcases hS : jsSplitChar sep rest with _ | ⟨p, ps⟩
      · exact absurd hS (jsSplitChar_ne_nil sep rest)
      · rw [hS] at hres
        simpa using hres

theorem extract_eq_specMealRestaurant (meal : String) :
    extractRestaurantNameFromMeal meal = specMealRestaurant meal := by
  unfold extractRestaurantNameFromMeal specMealRestaurant
  rcases h : afterFirstChar ':' meal.data with _ | rem
  · rw [if_pos ((jsSplitChar_length_iff ':' meal.data).mpr h)]
  · have hlen : ¬(jsSplitChar ':' meal.data).length < 2 := by
      intro hl
      rw [(jsSplitChar_length_iff ':' meal.data).mp hl] at h
      cases h
    rw [if_neg hlen, joinChar_tail ':' meal.data rem h]

/-! ## Claim C4 -/

/-- Claim C4: the validator's meal parser takes everything after the first
colon, then the trimmed text before the first " - " of that remainder, as the
restaurant name (proved equal to the spec-worded parser); the example meal
extracts "Green Table"; an extracted restaurant outside the allowed list
yields exactly one invalid-restaurant violation (an allowed one yields none,
an unparseable meal a format violation); and with the vegetarian constraint a
meal lacking every dietary-signal substring gets exactly one extra
violation. -/
theorem claim4_meal_rules :
    (∀ meal : String, extractRestaurantNameFromMeal meal = specMealRestaurant meal)
    ∧ extractRestaurantNameFromMeal mealLunchGT = some "Green Table"
    ∧ (∀ (veg : Bool) (aR : List String) (meal r : String),
        extractRestaurantNameFromMeal meal = some r → aR.contains r = false →
        (mealEntryViolations veg aR meal).count (invalidRestaurantMsg r) = 1)
    ∧ (∀ (veg : Bool) (aR : List String) (meal r : String),
        extractRestaurantNameFromMeal meal = some r → aR.contains r = true →
        invalidRestaurantMsg r ∉ mealEntryViolations veg aR meal)
    ∧ (∀ (veg : Bool) (aR : List String) (meal : String),
        extractRestaurantNameFromMeal meal = none →
        mealEntryViolations veg aR meal =
          mealFormatMsg meal ::
            (if veg && !(mealHasVegHint meal) then [vegMsg meal] else []))
    ∧ (∀ (aR : List String) (meal : String),
        (mealHasVegHint meal = false →
          (mealEntryViolations true aR meal).count (vegMsg meal) = 1)
        ∧ (mealHasVegHint meal = true →
          vegMsg meal ∉ mealEntryViolations true aR meal))
    ∧ (validateItineraryProduction tripVeg itVeg
        ["Art Institute"] ["Rustic"] []).violations.count
          (invalidRestaurantMsg "Green Table") = 1 := by
  refine ⟨extract_eq_specMealRestaurant, by decide, ?_, ?_, ?_, ?_, by decide⟩
  · intro veg aR meal r hext hcon
    have hni : (vegMsg meal == invalidRestaurantMsg r) = false :=
      beq_eq_false_iff_ne.mpr (vegMsg_ne_invalidRestaurantMsg _ _)
    have hmemf : r ∉ aR := fun hm => by
      rw [(contains_iff_mem_str aR r).mpr hm] at hcon
      cases hcon
    simp [mealEntryViolations, hext, List.count_append, hmemf]
    split <;> simp [List.count_cons, List.count_nil, hni]
  · intro veg aR meal r hext hcon
    simp only [mealEntryViolations, hext, hcon]
    intro hmem
    rcases List.mem_append.mp hmem with hmem1 | hmem2
    · simp at hmem1
    · split at hmem2
      · exact vegMsg_ne_invalidRestaurantMsg meal r
          ((List.mem_singleton.mp hmem2).symm)
      · simp at hmem2
  · intro veg aR meal hext
    simp only [mealEntryViolations, hext, List.singleton_append]
  · intro aR meal
    have hf : (mealFormatMsg meal == vegMsg meal) = false :=
      beq_eq_false_iff_ne.mpr (Ne.symm (vegMsg_ne_mealFormatMsg _ _))
    constructor
    · intro hno
      rcases hext : extractRestaurantNameFromMeal meal with _ | r
      · simp [mealEntryViolations, hext, hno, List.count_append, List.count_cons, hf]
      · have hi : (invalidRestaurantMsg r == vegMsg meal) = false :=
          beq_eq_false_iff_ne.mpr (Ne.symm (vegMsg_ne_invalidRestaurantMsg _ _))
        simp only [mealEntryViolations, hext, hno]
        split <;> simp [List.count_append, List.count_cons, hi]
    · intro hyes
      rcases hext : extractRestaurantNameFromMeal meal with _ | r
      · simp only [mealEntryViolations, hext, hyes]
        intro hmem
        simp at hmem
        exact vegMsg_ne_mealFormatMsg meal meal hmem
      · simp only [mealEntryViolations, hext, hyes]
        intro hmem
        rcases List.mem_append.mp hmem with hmem1 | hmem2
        · split at hmem1
          · simp at hmem1
          · exact vegMsg_ne_invalidRestaurantMsg meal r (List.mem_singleton.mp hmem1)
        · simp at hmem2

/-! ## Claim C8: shape-check versus schema parse -/

/-- A value that fails the `looksLikeItinerary` shape check also fails
`ItinerarySchema.parse` (the schema requires a string summary and an array
days as well). -/
theorem notShaped_parse_none : ∀ j, looksLikeItinerary j = false →
    itinerarySchemaParse j = none := by
  intro j h
  cases j with
  | null => rfl
  | bool b => rfl
  | num n => rfl
  | str s => rfl
  | arr xs => rfl
  | obj kvs =>
    rw [looksLikeItinerary] at h
    rcases hA : jlookup kvs "summary" with _ | ja
    · simp [itinerarySchemaParse, hA, parseStr1]
    · by_cases hstr : ∃ s, ja = Json.str s
      · obtain ⟨s, rfl⟩ := hstr
        rw [hA] at h
        simp only [Bool.true_and] at h
        rcases hB : jlookup kvs "days" with _ | jb
        · rcases hps : parseStr1 (some (Json.str s)) with _ | sm <;>
            simp [itinerarySchemaParse, hA, hB, hps]
        · rw [hB] at h
          cases jb with
          | arr xs => simp at h
          | null =>
            rcases hps : parseStr1 (some (Json.str s)) with _ | sm <;>
              simp [itinerarySchemaParse, hA, hB, hps]
          | bool b =>
            rcases hps : parseStr1 (some (Json.str s)) with _ | sm <;>
              simp [itinerarySchemaParse, hA, hB, hps]
          | num n =>
            rcases hps : parseStr1 (some (Json.str s)) with _ | sm <;>
              simp [itinerarySchemaParse, hA, hB, hps]
          | str s2 =>
            rcases hps : parseStr1 (some (Json.str s)) with _ | sm <;>
              simp [itinerarySchemaParse, hA, hB, hps]
          | obj kvs2 =>
            rcases hps : parseStr1 (some (Json.str s)) with _ | sm <;>
              simp [itinerarySchemaParse, hA, hB, hps]
      · have hps : parseStr1 (some ja) = none := by
          cases ja with
          | str s => exact absurd ⟨s, rfl⟩ hstr
          | null => rfl
          | bool b => rfl
          | num n => rfl
          | arr xs => rfl
          | obj k => rfl
        simp [itinerarySchemaParse, hA, hps]

/-- Claim C8, counterexample: on the interactive path, when both the repair
output and the schema-fix output fail the shape check, the pass propagates a
schema parse error (failing the run) instead of keeping the previous
itinerary. -/
theorem claim8_counterexample :
    interactiveRepairPass (ReviseOutcome.parsed (Json.obj []))
        (ReviseOutcome.parsed (Json.obj [])) =
      (Except.error "ItinerarySchema.parse failed", 2) := by
  rfl

/-- Claim C8 as amended: on the interactive path a shape-check failure does
trigger exactly one additional schema-fix repair call, but when that call
also fails to produce a valid shape the run aborts with a schema parse error
rather than keeping the previous itinerary; it is the batch path that keeps
the previous itinerary on a shape-check failure, and it issues no additional
call. -/
theorem claim8_schema_fix :
    (∀ (j : Json) (out2 : ReviseOutcome), looksLikeItinerary j = false →
       (interactiveRepairPass (ReviseOutcome.parsed j) out2).2 = 2)
    ∧ (∀ (j j2 : Json), looksLikeItinerary j = false → looksLikeItinerary j2 = false →
       (interactiveRepairPass (ReviseOutcome.parsed j) (ReviseOutcome.parsed j2)).1 =
         Except.error "ItinerarySchema.parse failed")
    ∧ (∀ (trip : TripRequest) (aA aR aI : List String) (j : Json)
         (st : Itinerary × ValidationResult), looksLikeItinerary j = false →
       batchRepairStep trip aA aR aI (ReviseOutcome.parsed j) st =
         Except.ok (st.1, validateItineraryProduction trip st.1 aA aR aI)) := by
  refine ⟨?_, ?_, ?_⟩
  · intro j out2 h
    cases out2 with
    | parseFail => simp [interactiveRepairPass, h]
    | parsed j2 =>
      rcases hp : itinerarySchemaParse j2 with _ | it <;>
        simp [interactiveRepairPass, h, hp]
  · intro j j2 h1 h2
    simp [interactiveRepairPass, h1, notShaped_parse_none j2 h2]
  · intro trip aA aR aI j st h
    simp [batchRepairStep, h]

/-! ## Claim C1: loop lemmas -/

/-- A successful repair step re-validates the itinerary it keeps. -/
theorem batchRepairStep_validation (trip : TripRequest) (aA aR aI : List String)
    (out : ReviseOutcome) (st st2 : Itinerary × ValidationResult)
    (h : batchRepairStep trip aA aR aI out st = Except.ok st2) :
    st2.2 = validateItineraryProduction trip st2.1 aA aR aI := by
  cases out with
  | parseFail => simp [batchRepairStep] at h
  | parsed j =>
    rw [batchRepairStep] at h
    by_cases hl : looksLikeItinerary j = true
    · rw [if_pos hl] at h
      cases hp : itinerarySchemaParse j with
      | none => rw [hp] at h; cases h
      | some it2 =>
        rw [hp] at h
        injection h with h
        rw [← h]
    · rw [if_neg hl] at h
      injection h with h
      rw [← h]

/-- Along the repair loop, a returned ok state carries the validator's result
for its own itinerary. -/
theorem batchRepairLoop_ok_validation (trip : TripRequest) (aA aR aI : List String) :
    ∀ (outs : List ReviseOutcome) (st : Itinerary × ValidationResult),
      st.2 = validateItineraryProduction trip st.1 aA aR aI →
      ∀ it v, batchRepairLoop trip aA aR aI outs st = Except.ok (it, v) →
        v = validateItineraryProduction trip it aA aR aI := by
  intro outs
  induction outs with
  | nil =>
    intro st hst it v h
    rw [batchRepairLoop] at h
    injection h with h
    rw [h] at hst
    exact hst
  | cons out rest ih =>
    intro st hst it v h
    rw [batchRepairLoop] at h
    by_cases hok : st.2.ok = true
    · rw [if_pos hok] at h
      injection h with h
      rw [h] at hst
      exact hst
    · rw [if_neg hok] at h
      cases hstep : batchRepairStep trip aA aR aI out st with
      | error e => rw [hstep] at h; exact Except.noConfusion h
      | ok st2 =>
        rw [hstep] at h
        exact ih st2 (batchRepairStep_validation trip aA aR aI out st st2 hstep) it v h

/-- Benign collaborator outcomes keep the whole loop exception-free. -/
theorem batchRepairLoop_good (trip : TripRequest) (aA aR aI : List String) :
    ∀ (outs : List ReviseOutcome) (st : Itinerary × ValidationResult),
      (∀ o ∈ outs, goodOutcome o) →
      ∃ st', batchRepairLoop trip aA aR aI outs st = Except.ok st' := by
  intro outs
  induction outs with
  | nil => intro st _; exact ⟨st, rfl⟩
  | cons out rest ih =>
    intro st hgood
    rw [batchRepairLoop]
    by_cases hok : st.2.ok = true
    · rw [if_pos hok]; exact ⟨st, rfl⟩
    · rw [if_neg hok]
      have hgo := hgood out (List.mem_cons_self out rest)
      have hstep : ∃ st2, batchRepairStep trip aA aR aI out st = Except.ok st2 := by
        cases out with
        | parseFail => exact hgo.elim
        | parsed j =>
          rw [batchRepairStep]
          by_cases hl : looksLikeItinerary j = true
          · rw [if_pos hl]
            cases hp : itinerarySchemaParse j with
            | none => exact absurd hp (hgo hl)
            | some it2 => exact ⟨_, rfl⟩
          · rw [if_neg hl]; exact ⟨_, rfl⟩
      obtain ⟨st2, hstep⟩ := hstep
      obtain ⟨st', hloop⟩ := ih st2 (fun o ho => hgood o (List.mem_cons_of_mem _ ho))
      refine ⟨st', ?_⟩
      rw [hstep]
      exact hloop

/-- Claim C1, counterexample: a repair output that passes the shape check but
fails the itinerary schema (string summary with an empty days array) makes
the batch loop propagate an exception — the request fails instead of
returning the current itinerary with the last validation. -/
theorem claim1_counterexample :
    planFromIntakeLoop tripVeg [] ["Green Table", "Rustic"] [] itVeg
        (fun _ => ReviseOutcome.parsed badShapedJson) =
      Except.error "ItinerarySchema.parse failed" := by
  rfl

/-- Claim C1 as amended: the batch loop runs at most two repair rounds (its
result depends only on rounds 0 and 1 of the collaborator behavior); any
normal return pairs the current itinerary with the validator's result for
exactly that itinerary (the last computed validation); and whenever every
consulted repair outcome parses to JSON and, when shape-valid, satisfies the
itinerary schema, the loop does return normally. A repair outcome that fails
JSON parsing, or that passes the shape check but fails the schema parse,
instead aborts the request with an exception. -/
theorem claim1_loop_bounded (trip : TripRequest) (aA aR aI : List String)
    (it0 : Itinerary) (outs : Nat → ReviseOutcome) :
    (∀ outs' : Nat → ReviseOutcome, outs 0 = outs' 0 → outs 1 = outs' 1 →
       planFromIntakeLoop trip aA aR aI it0 outs =
         planFromIntakeLoop trip aA aR aI it0 outs')
    ∧ (∀ it v, planFromIntakeLoop trip aA aR aI it0 outs = Except.ok (it, v) →
        v = validateItineraryProduction trip it aA aR aI)
    ∧ (goodOutcome (outs 0) → goodOutcome (outs 1) →
        ∃ it, planFromIntakeLoop trip aA aR aI it0 outs =
          Except.ok (it, validateItineraryProduction trip it aA aR aI)) := by
  refine ⟨?_, ?_, ?_⟩
  · intro outs' h0 h1
    unfold planFromIntakeLoop
    rw [h0, h1]
  · intro it v h
    exact batchRepairLoop_ok_validation trip aA aR aI [outs 0, outs 1] _ rfl it v h
  · intro g0 g1
    have hall : ∀ o ∈ [outs 0, outs 1], goodOutcome o := by
      intro o ho
      rcases List.mem_cons.mp ho with rfl | ho2
      · exact g0
      · rcases List.mem_cons.mp ho2 with rfl | ho3
        · exact g1
        · cases ho3
    obtain ⟨st', h⟩ := batchRepairLoop_good trip aA aR aI [outs 0, outs 1]
      (it0, validateItineraryProduction trip it0 aA aR aI) hall
    have h' : planFromIntakeLoop trip aA aR aI it0 outs = Except.ok (st'.1, st'.2) := by
      rw [Prod.mk.eta]; exact h
    have hv := batchRepairLoop_ok_validation trip aA aR aI [outs 0, outs 1] _ rfl
      st'.1 st'.2 h'
    refine ⟨st'.1, ?_⟩
    rw [h', hv]

/-! ## Claim C10 -/

/-- Claim C10: on the batch path the inclusive day count is
`max 1 (floor((end − start) / 86400000 ms) + 1)`: equal dates give a 1-day
trip, an earlier end date is silently clamped to 1 day, a span of 30 or more
epoch days (31 or more inclusive days) makes the trip-request schema parse
fail the request, and spans of 0..29 epoch days succeed with the inclusive
count. -/
theorem claim10_trip_length (input : Intake) (y1 y2 : Int) (m1 d1 m2 d2 : Nat)
    (hs : parseCivil input.startDate = some (y1, m1, d1))
    (he : parseCivil input.endDate = some (y2, m2, d2)) :
    (tripLengthDaysFromIntake input.startDate input.endDate =
       some (max 1 (daysFromCivil y2 m2 d2 - daysFromCivil y1 m1 d1 + 1)))
    ∧ (daysFromCivil y2 m2 d2 = daysFromCivil y1 m1 d1 →
        tripLengthDaysFromIntake input.startDate input.endDate = some 1)
    ∧ (daysFromCivil y2 m2 d2 < daysFromCivil y1 m1 d1 →
        tripLengthDaysFromIntake input.startDate input.endDate = some 1)
    ∧ (30 ≤ daysFromCivil y2 m2 d2 - daysFromCivil y1 m1 d1 →
        1 ≤ input.destination.length →
        tripRequestFromIntake input = Except.error "TripRequestSchema: tripLengthDays")
    ∧ (0 ≤ daysFromCivil y2 m2 d2 - daysFromCivil y1 m1 d1 →
        daysFromCivil y2 m2 d2 - daysFromCivil y1 m1 d1 ≤ 29 →
        1 ≤ input.destination.length → 1 ≤ input.travelers → input.travelers ≤ 20 →
        ∃ tr, tripRequestFromIntake input = Except.ok tr ∧
          (tr.tripLengthDays : Int) =
            daysFromCivil y2 m2 d2 - daysFromCivil y1 m1 d1 + 1) := by
  have hkey : tripLengthDaysFromIntake input.startDate input.endDate =
      some (max 1 (daysFromCivil y2 m2 d2 - daysFromCivil y1 m1 d1 + 1)) := by
    unfold tripLengthDaysFromIntake dateMs
    rw [hs, he]
    have hmul : daysFromCivil y2 m2 d2 * 86400000 - daysFromCivil y1 m1 d1 * 86400000 =
        (daysFromCivil y2 m2 d2 - daysFromCivil y1 m1 d1) * 86400000 := by ring
    simp only [Option.map_some', Option.some_bind, Option.bind_eq_bind]
    rw [hmul, Int.mul_fdiv_cancel _ (by norm_num)]
    rfl
  refine ⟨hkey, ?_, ?_, ?_, ?_⟩
  · intro hEq
    rw [hkey, hEq]
    norm_num
  · intro hLt
    rw [hkey, max_eq_left (by omega)]
  · intro hD hdest
    simp only [tripRequestFromIntake.eq_def, hkey]
    rw [max_eq_right (by omega)]
    rw [if_neg (by omega), if_pos (Or.inr (by omega))]
  · intro hD0 hD29 hdest htrav1 htrav2
    simp only [tripRequestFromIntake.eq_def, hkey]
    rw [max_eq_right (by omega)]
    rw [if_neg (by omega), if_neg (by omega), if_neg (by omega)]
    refine ⟨_, rfl, ?_⟩
    simp only
    rw [Int.toNat_of_nonneg (by omega)]

/-! ## Claim C3: scan loop lemmas -/

theorem scanStep_depth_of_inString (op cl : Char) (st : ScanSt) (ch : Char)
    (h : st.inString = true) : (scanStep op cl st ch).depth = st.depth := by
  rw [scanStep, if_pos h]
  split
  · rfl
  · split
    · rfl
    · split
      · rfl
      · rfl

theorem scanStep_depth_of_quote (op cl : Char) (st : ScanSt)
    (h : st.inString = false) : (scanStep op cl st '"').depth = st.depth := by
  simp [scanStep, h]

theorem sliceSpec_step (op cl : Char) (ch : Char) (rest : List Char) (st : ScanSt)
    (acc : List Char)
    (hrec : sliceLoop op cl st acc (ch :: rest) =
      sliceLoop op cl (scanStep op cl st ch) (ch :: acc) rest)
    (hd2 : (scanStep op cl st ch).depth ≠ 0)
    (IH : SliceSpec op cl rest (scanStep op cl st ch) (ch :: acc)) :
    SliceSpec op cl (ch :: rest) st acc := by
  constructor
  · intro out h
    rw [hrec] at h
    obtain ⟨n, hn1, hnlen, hout, hbal, hmin⟩ := IH.1 out h
    refine ⟨n + 1, by omega, by simp only [List.length_cons]; omega, ?_, ?_, ?_⟩
    · rw [hout]
      simp [List.take_succ_cons, List.reverse_cons, List.append_assoc]
    · simpa [scanList, List.take_succ_cons] using hbal
    · intro m hm1 hmlt
      cases m with
      | zero => omega
      | succ k =>
        cases k with
        | zero => simpa [scanList, List.take_succ_cons] using hd2
        | succ k2 =>
          have := hmin (k2 + 1) (by omega) (by omega)
          simpa [scanList, List.take_succ_cons] using this
  · intro h m hm1 hmle
    rw [hrec] at h
    cases m with
    | zero => omega
    | succ k =>
      cases k with
      | zero => simpa [scanList, List.take_succ_cons] using hd2
      | succ k2 =>
        have hk : k2 + 1 ≤ rest.length := by
          simp only [List.length_cons] at hmle; omega
        have := IH.2 h (k2 + 1) (by omega) hk
        simpa [scanList, List.take_succ_cons] using this

theorem sliceLoop_spec (op cl : Char) : ∀ (l : List Char) (st : ScanSt)
    (acc : List Char), st.depth ≠ 0 → SliceSpec op cl l st acc := by
  intro l
  induction l with
  | nil =>
    intro st acc hd
    constructor
    · intro out h
      exact Except.noConfusion h
    · intro _ m h1 h2
      simp only [List.length_nil] at h2
      omega
  | cons ch rest ih =>
    intro st acc hd
    by_cases hin : st.inString = true
    · refine sliceSpec_step op cl ch rest st acc ?_ ?_ ?_
      · simp only [sliceLoop]
        rw [if_pos hin]
      · rw [scanStep_depth_of_inString op cl st ch hin]
        exact hd
      · exact ih _ _ (by rw [scanStep_depth_of_inString op cl st ch hin]; exact hd)
    · have hin' : st.inString = false := by
        cases hst : st.inString
        · rfl
        · exact absurd hst hin
      by_cases hq : ch = '"'
      · refine sliceSpec_step op cl ch rest st acc ?_ ?_ ?_
        · simp only [sliceLoop]
          rw [if_neg hin, if_pos hq]
        · rw [hq, scanStep_depth_of_quote op cl st hin']
          exact hd
        · exact ih _ _ (by rw [hq, scanStep_depth_of_quote op cl st hin']; exact hd)
      · by_cases hz : (scanStep op cl st ch).depth = 0
        · have heq : sliceLoop op cl st acc (ch :: rest) =
              Except.ok (ch :: acc).reverse := by
            simp only [sliceLoop]
            rw [if_neg hin, if_neg hq, if_pos hz]
          constructor
          · intro out h
            rw [heq] at h
            injection h with h
            refine ⟨1, le_refl 1, by simp, ?_, ?_, ?_⟩
            · rw [← h]
              simp [List.reverse_cons]
            · simpa [scanList] using hz
            · intro m h1 h2
              omega
          · intro h
            rw [heq] at h
            exact Except.noConfusion h
        · refine sliceSpec_step op cl ch rest st acc ?_ hz (ih _ _ hz)
          simp only [sliceLoop]
          rw [if_neg hin, if_neg hq, if_neg hz]

theorem firstOpenSuffix_none_iff (op : Char) : ∀ l,
    firstOpenSuffix op l = none ↔ op ∉ l := by
  intro l
  induction l with
  | nil => simp [firstOpenSuffix]
  | cons c rest ih =>
    by_cases h : c = op
    · rw [firstOpenSuffix, if_pos h]
      simp [h]
    · rw [firstOpenSuffix, if_neg h]
      simp only [List.mem_cons, ih]
      constructor
      · intro hno
        rintro (he | hm)
        · exact h he.symm
        · exact hno hm
      · intro hno hm
        exact hno (Or.inr hm)

theorem firstOpenSuffix_decomp (op : Char) : ∀ l s, firstOpenSuffix op l = some s →
    ∃ pre, l = pre ++ s ∧ op ∉ pre ∧ s.head? = some op := by
  intro l
  induction l with
  | nil => intro s h; cases h
  | cons c rest ih =>
    intro s h
    by_cases hc : c = op
    · rw [firstOpenSuffix, if_pos hc] at h
      injection h with h
      refine ⟨[], by rw [h]; rfl, by simp, ?_⟩
      rw [← h]
      simp [hc]
    · rw [firstOpenSuffix, if_neg hc] at h
      obtain ⟨pre, hl, hnp, hh⟩ := ih s h
      refine ⟨c :: pre, by rw [hl]; rfl, ?_, hh⟩
      intro hmem
      rcases List.mem_cons.mp hmem with he | hp
      · exact hc he.symm
      · exact hnp hp

theorem extractAux_eq (op cl : Char) : ∀ l, extractAux op cl l =
    (match firstOpenSuffix op l with
     | none => Except.error "No JSON found"
     | some s => sliceLoop op cl initScanSt [] s) := by
  intro l
  induction l with
  | nil => rfl
  | cons c rest ih =>
    by_cases h : c = op
    · rw [extractAux, if_pos h, firstOpenSuffix, if_pos h]
    · rw [extractAux, if_neg h, firstOpenSuffix, if_neg h, ih]

theorem sliceLoop_error_msg (op cl : Char) : ∀ l st acc e,
    sliceLoop op cl st acc l = Except.error e → e = "Unterminated JSON" := by
  intro l
  induction l with
  | nil =>
    intro st acc e h
    injection h with h
    exact h.symm
  | cons ch rest ih =>
    intro st acc e h
    by_cases hin : st.inString = true
    · simp only [sliceLoop] at h
      rw [if_pos hin] at h
      exact ih _ _ _ h
    · by_cases hq : ch = '"'
      · simp only [sliceLoop] at h
        rw [if_neg hin, if_pos hq] at h
        exact ih _ _ _ h
      · by_cases hz : (scanStep op cl st ch).depth = 0
        · simp only [sliceLoop] at h
          rw [if_neg hin, if_neg hq, if_pos hz] at h
          exact Except.noConfusion h
        · simp only [sliceLoop] at h
          rw [if_neg hin, if_neg hq, if_neg hz] at h
          exact ih _ _ _ h

/-! ## Claim C3 -/

/-- Claim C3: with open brace `{`, the extractor scans from the first `{` of
the input (everything before it contains no `{`); a normal return is the
shortest non-empty prefix of that suffix whose string-aware scan (braces
inside double-quoted, backslash-escaped string literals do not count) ends at
depth 0 — the slice ending at the balancing brace; "No JSON found" is thrown
exactly when the input has no `{`, and "Unterminated JSON" exactly when no
balancing point exists. -/
theorem claim3_extract_first_json_slice (raw : String) :
    ((extractFirstJsonSlice raw openBraceChar closeBraceChar =
        Except.error "No JSON found") ↔ openBraceChar ∉ raw.data)
    ∧ (∀ s, firstOpenSuffix openBraceChar raw.data = some s →
        ((∃ pre, raw.data = pre ++ s ∧ openBraceChar ∉ pre ∧
            s.head? = some openBraceChar)
         ∧ (∀ out, extractFirstJsonSlice raw openBraceChar closeBraceChar =
              Except.ok out →
            ∃ n, 1 ≤ n ∧ n ≤ s.length ∧ out.data = s.take n ∧
              balancedAt openBraceChar closeBraceChar s n ∧
              ∀ m, 1 ≤ m → m < n → ¬balancedAt openBraceChar closeBraceChar s m)
         ∧ ((extractFirstJsonSlice raw openBraceChar closeBraceChar =
              Except.error "Unterminated JSON") ↔
            (∀ m, 1 ≤ m → m ≤ s.length →
              ¬balancedAt openBraceChar closeBraceChar s m)))) := by
  have hdef : extractFirstJsonSlice raw openBraceChar closeBraceChar =
      (extractAux openBraceChar closeBraceChar raw.data).map String.mk := rfl
  constructor
  · rw [hdef, extractAux_eq]
    rcases hfos : firstOpenSuffix openBraceChar raw.data with _ | s
    · simp only [Except.map_error]
      exact iff_of_true rfl ((firstOpenSuffix_none_iff openBraceChar raw.data).mp hfos)
    · have hmem : openBraceChar ∈ raw.data := by
        by_contra hno
        rw [(firstOpenSuffix_none_iff openBraceChar raw.data).mpr hno] at hfos
        cases hfos
      refine iff_of_false ?_ (fun hno => hno hmem)
      have hred : (match some s with
          | none => Except.error "No JSON found"
          | some s => sliceLoop openBraceChar closeBraceChar initScanSt [] s) =
          sliceLoop openBraceChar closeBraceChar initScanSt [] s := rfl
      rw [hred]
      cases hres : sliceLoop openBraceChar closeBraceChar initScanSt [] s with
      | ok l' =>
        intro hcontra
        exact Except.noConfusion hcontra
      | error e =>
        have he := sliceLoop_error_msg openBraceChar closeBraceChar s initScanSt [] e hres
        rw [he]
        intro hcontra
        injection hcontra with hmsg
        exact absurd hmsg (by decide)
  · intro s hfos
    obtain ⟨pre, hlraw, hpre, hhead⟩ := firstOpenSuffix_decomp openBraceChar raw.data s hfos
    cases s with
    | nil => cases hhead
    | cons c srest =>
      have hc : c = openBraceChar := by
        injection hhead
      subst hc
      have key : extractFirstJsonSlice raw openBraceChar closeBraceChar =
          (sliceLoop openBraceChar closeBraceChar afterOpenSt [openBraceChar]
            srest).map String.mk := by
        rw [hdef, extractAux_eq, hfos]
        rfl
      have hspec := sliceLoop_spec openBraceChar closeBraceChar srest afterOpenSt
        [openBraceChar] (by decide)
      have htrans : ∀ (m : Nat),
          scanList openBraceChar closeBraceChar initScanSt
            ((openBraceChar :: srest).take (m + 1)) =
          scanList openBraceChar closeBraceChar afterOpenSt (srest.take m) :=
        fun m => rfl
      refine ⟨⟨pre, hlraw, hpre, rfl⟩, ?_, ?_⟩
      · intro out hout
        rw [key] at hout
        cases hres : sliceLoop openBraceChar closeBraceChar afterOpenSt
            [openBraceChar] srest with
        | error e =>
          rw [hres] at hout
          exact Except.noConfusion hout
        | ok l' =>
          rw [hres] at hout
          injection hout with hout
          obtain ⟨n, hn1, hnlen, houtl, hbal, hmin⟩ := hspec.1 l' hres
          refine ⟨n + 1, by omega, by simp only [List.length_cons]; omega, ?_, ?_, ?_⟩
          · rw [← hout, houtl]
            simp [List.take_succ_cons]
          · show (scanList openBraceChar closeBraceChar initScanSt
                ((openBraceChar :: srest).take (n + 1))).depth = 0
            rw [htrans n]
            exact hbal
          · intro m hm1 hmlt
            cases m with
            | zero => omega
            | succ k =>
              show ¬(scanList openBraceChar closeBraceChar initScanSt
                  ((openBraceChar :: srest).take (k + 1))).depth = 0
              rw [htrans k]
              cases k with
              | zero => rw [List.take_zero]; decide
              | succ k2 => exact hmin (k2 + 1) (by omega) (by omega)
      · constructor
        · intro herr m hm1 hmle
          rw [key] at herr
          cases hres : sliceLoop openBraceChar closeBraceChar afterOpenSt
              [openBraceChar] srest with
          | ok l' =>
            rw [hres] at herr
            exact Except.noConfusion herr
          | error e =>
            rw [hres] at herr
            injection herr with he
            have hresU : sliceLoop openBraceChar closeBraceChar afterOpenSt
                [openBraceChar] srest = Except.error "Unterminated JSON" := by
              rw [hres, he]
            cases m with
            | zero => omega
            | succ k =>
              show ¬(scanList openBraceChar closeBraceChar initScanSt
                  ((openBraceChar :: srest).take (k + 1))).depth = 0
              rw [htrans k]
              cases k with
              | zero => rw [List.take_zero]; decide
              | succ k2 =>
                have hk : k2 + 1 ≤ srest.length := by
                  simp only [List.length_cons] at hmle; omega
                exact hspec.2 hresU (k2 + 1) (by omega) hk
        · intro hno
          rw [key]
          cases hres : sliceLoop openBraceChar closeBraceChar afterOpenSt
              [openBraceChar] srest with
          | ok l' =>
            obtain ⟨n, hn1, hnlen, _, hbal, _⟩ := hspec.1 l' hres
            have hb : balancedAt openBraceChar closeBraceChar
                (openBraceChar :: srest) (n + 1) := by
              show (scanList openBraceChar closeBraceChar initScanSt
                  ((openBraceChar :: srest).take (n + 1))).depth = 0
              rw [htrans n]
              exact hbal
            exact absurd hb
              (hno (n + 1) (by omega) (by simp only [List.length_cons]; omega))
          | error e =>
            have he := sliceLoop_error_msg openBraceChar closeBraceChar srest
              afterOpenSt [openBraceChar] e hres
            rw [he]
            rfl

/-! ## Witnesses -/

/-- Witness for claim C1 at a concrete failing validation and two shapeless
repair outputs: the loop returns the kept itinerary with its validation. -/
theorem claim1_witness :
    ∃ it, planFromIntakeLoop tripVeg [] ["Green Table", "Rustic"] [] itVeg
        (fun _ => ReviseOutcome.parsed (Json.obj [])) =
      Except.ok (it, validateItineraryProduction tripVeg it [] ["Green Table", "Rustic"] []) :=
  (claim1_loop_bounded tripVeg [] ["Green Table", "Rustic"] [] itVeg
      (fun _ => ReviseOutcome.parsed (Json.obj []))).2.2
    (by intro h; exact absurd h (by decide))
    (by intro h; exact absurd h (by decide))

/-- Witness for claim C3 at concrete inputs: a string without braces throws
"No JSON found", and a string-aware balanced slice is returned on a string
whose quoted parts contain a close brace. -/
theorem claim3_witness :
    extractFirstJsonSlice "ab" openBraceChar closeBraceChar =
        Except.error "No JSON found"
    ∧ ∃ n, 1 ≤ n ∧ n ≤ ("\x7b\"x\x7d\":1\x7d tail".data).length ∧
        ("\x7b\"x\x7d\":1\x7d".data) = ("\x7b\"x\x7d\":1\x7d tail".data).take n ∧
        balancedAt openBraceChar closeBraceChar ("\x7b\"x\x7d\":1\x7d tail".data) n ∧
        ∀ m, 1 ≤ m → m < n →
          ¬balancedAt openBraceChar closeBraceChar ("\x7b\"x\x7d\":1\x7d tail".data) m :=
  ⟨(claim3_extract_first_json_slice "ab").1.mpr (by decide),
   ((claim3_extract_first_json_slice "ab\x7b\"x\x7d\":1\x7d tail").2
      ("\x7b\"x\x7d\":1\x7d tail".data) (by decide)).2.1
     "\x7b\"x\x7d\":1\x7d" rfl⟩

/-- Witness for claim C4: the example meal against an allowed list missing
"Green Table" yields exactly one invalid-restaurant violation. -/
theorem claim4_witness :
    (mealEntryViolations false ["Rustic"] mealLunchGT).count
      (invalidRestaurantMsg "Green Table") = 1 :=
  claim4_meal_rules.2.2.1 false ["Rustic"] mealLunchGT "Green Table"
    (by decide) (by decide)

/-- Witness for claim C5: "Cafe A" in the projected example lists traces back
to a restaurant candidate. -/
theorem claim5_witness :
    ∃ c ∈ c2cands, c.category = Category.restaurant ∧ "Cafe A" = trimS c.name :=
  (claim5_allowed_lists_invariants c2cands).2.1.2.1 "Cafe A" (by decide)

/-- Witness for claim C6: a relaxed day with 4 blocks lands its pace
violation in a full validator run. -/
theorem claim6_witness :
    paceMsg 1 4 Pace.relaxed ∈
      (validateItineraryProduction tripVeg
        ⟨"Trip", [dayWithBlocks 4], [], [], none⟩
        ["Art Institute"] ["Rustic"] []).violations :=
  claim6_pace_rules.2.1 tripVeg ⟨"Trip", [dayWithBlocks 4], [], [], none⟩
    ["Art Institute"] ["Rustic"] [] (dayWithBlocks 4) (by decide) (by decide)

/-- Witness for claim C7: a block title outside the (empty) allowed list puts
its invalid-attraction violation into a full validator run. -/
theorem claim7_witness :
    invalidAttractionMsg "Art Institute" ∈
      (validateItineraryProduction tripVeg itVeg [] ["Rustic"] []).violations :=
  claim7_accumulation.2.2 tripVeg itVeg [] ["Rustic"] [] (dayWithBlocks 2) blockArt
    (by decide) (by decide) (by decide)

/-- Witness for claim C8: a shapeless repair output followed by a shapeless
schema-fix output produces a schema parse error on the interactive path. -/
theorem claim8_witness :
    (interactiveRepairPass (ReviseOutcome.parsed (Json.obj []))
        (ReviseOutcome.parsed Json.null)).1 =
      Except.error "ItinerarySchema.parse failed" :=
  claim8_schema_fix.2.1 (Json.obj []) Json.null (by decide) (by decide)

/-- Witness for claim C10 at the concrete May 10-11 intake: the parse
succeeds with the 2-day inclusive count. -/
theorem claim10_witness :
    ∃ tr, tripRequestFromIntake intakeMay = Except.ok tr ∧
      (tr.tripLengthDays : Int) =
        daysFromCivil 2024 5 11 - daysFromCivil 2024 5 10 + 1 :=
  (claim10_trip_length intakeMay 2024 2024 5 10 5 11 (by decide) (by decide)).2.2.2.2
    (by decide) (by decide) (by decide) (by decide) (by decide)

end Itin
